import Mathlib

/-!
Embedding of byte_order.h : ordering tags, reordering primitives and the ordered value wrapper

Shallow embedding of `src/byte_order.h`.

Modelling conventions

* A C++ object type is a `ctype`: which type it is, its `sizeof`, and how many bytes of its
  object representation a value of the type occupies.  A value is its object
  representation, the list of its bytes in memory order (`storage`).
* The bodies of the reordering overloads use a type only through `sizeof`, so they take sizes
  (`Nat`); template parameters are explicit arguments, in the order in which each template
  declares them.  Overload resolution depends on which type an argument has, so the calls
  that the source makes with explicit template arguments take `ctype`s and pass them
  positionally, as C++ does.
* `reinterpret_cast<InnerType *>` is a view of the storage as consecutive elements of
  `sizeof(InnerType)` bytes (`elements`).
* A result is `none` when the code yields no value: a call for which no overload is viable,
  or an access to bytes outside the object the code was handed (undefined behaviour).
* The source spells two names that are declared nowhere: `InnterType` (lines 73 and 80) and
  `in` inside the two-argument reversing overload (line 73).  They are read as the only
  declared names they can stand for, `InnerType` and `in_out`.
-/

namespace byte_order

/-- Ordering tag types of lines 35-43: `any_ordering` is the base tag, `keep_ordering` and
`reverse_ordering` are its two derived tags. -/
inductive any_ordering
  | keep_ordering
  | reverse_ordering
  deriving DecidableEq, Repr

open any_ordering

/-- Alias `little_endian_ordering` of lines 45-51; the argument says whether the preprocessor
symbol `BIG_ENDIAN` is defined. -/
def little_endian_ordering (BIG_ENDIAN : Bool) : any_ordering :=
  if BIG_ENDIAN then reverse_ordering else keep_ordering

/-- Alias `big_endian_ordering` of lines 45-51. -/
def big_endian_ordering (BIG_ENDIAN : Bool) : any_ordering :=
  if BIG_ENDIAN then keep_ordering else reverse_ordering

/-- Alias `net_ordering` of line 53. -/
def net_ordering (BIG_ENDIAN : Bool) : any_ordering :=
  big_endian_ordering BIG_ENDIAN

/-- One byte of storage. -/
abbrev byte := Fin 256

/-- Object representation of a value: its bytes in memory order. -/
abbrev storage := List byte

/-- The types the source names (lines 137 and 181-236; `signed short`, `signed int`,
`signed long` and `signed long long` are `short`, `int`, `long` and `long long`), and
`other` for any further type a template is instantiated with. -/
inductive type_name
  | char
  | unsigned_char
  | signed_char
  | short
  | unsigned_short
  | long
  | unsigned_long
  | int
  | unsigned_int
  | long_long
  | unsigned_long_long
  | float
  | double
  | long_double
  | other (id : Nat)
  deriving DecidableEq, Repr

/-- A C++ object type as far as the source depends on it: which type it is, its `sizeof`,
and the number of leading bytes of the object representation that hold the value.  The bytes
behind them are padding: a copy of a value of the type (`=`, member initialisation) does not
transfer them. -/
structure ctype where
  name : type_name
  sizeof : Nat
  value_bytes : Nat
  deriving DecidableEq, Repr

/-- A type without padding bytes. -/
def ctype.plain (name : type_name) (sizeof : Nat) : ctype :=
  ⟨name, sizeof, sizeof⟩

/-- Type `char`. -/
def c_char : ctype := ctype.plain type_name.char 1

/-- Type `unsigned char`, the default `InnerType` of line 137. -/
def c_unsigned_char : ctype := ctype.plain type_name.unsigned_char 1

/-- Type `signed char`. -/
def c_signed_char : ctype := ctype.plain type_name.signed_char 1

/-- Type `unsigned short` on a host where it has `size` bytes. -/
def c_unsigned_short (size : Nat) : ctype := ctype.plain type_name.unsigned_short size

/-- Type `unsigned int` on a host where it has `size` bytes. -/
def c_unsigned_int (size : Nat) : ctype := ctype.plain type_name.unsigned_int size

/-- Type `long double` on a host where it has `size` bytes of which the first `value_bytes`
hold the value (16 and 10 on x86-64 System V). -/
def c_long_double (size value_bytes : Nat) : ctype :=
  ⟨type_name.long_double, size, value_bytes⟩

/-- Assignment `dst = src` between two objects of type `T`, and initialisation of an object
from a value of type `T`: the value bytes of `src` are transferred, the padding bytes of
`dst` are not written. -/
def copy_value (T : ctype) (dst src : storage) : storage :=
  src.take T.value_bytes ++ dst.drop T.value_bytes

namespace detail

/-- The pointer range `[begin, begin + count)` obtained from
`reinterpret_cast<InnerType *>(&x)`: the storage read as `count` consecutive elements of
`size` bytes each. -/
def elements (size : Nat) : Nat → storage → List storage
  | 0, _ => []
  | count + 1, mem => mem.take size :: elements size count (mem.drop size)

/-- Library call `std::reverse(begin, end)` on `count` elements of `size` bytes lying at the
start of `mem`: the elements are put in reverse order, every other byte of `mem` stays. -/
def std_reverse (size count : Nat) (mem : storage) : Option storage :=
  if count * size ≤ mem.length then
    some ((elements size count mem).reverse.flatten ++ mem.drop (count * size))
  else none

/-- Library call `std::reverse_copy(begin, end, out_begin)`: the `count` elements of `size`
bytes at the start of `src` are written in reverse order to the start of `dst`; the bytes of
`dst` behind them are not written. -/
def std_reverse_copy (size count : Nat) (src dst : storage) : Option storage :=
  if count * size ≤ src.length ∧ count * size ≤ dst.length then
    some ((elements size count src).reverse.flatten ++ dst.drop (count * size))
  else none

/-- Lines 56-59: `template<typename OuterType,typename InnerType>
void reorder(OuterType &,keep_ordering)`, empty body. -/
def reorder_keep (_OuterType _InnerType : Nat) (in_out : storage) : Option storage :=
  some in_out

/-- Lines 61-64: `template<typename InnerType,typename OuterType>
void reorder(OuterType &out,const OuterType in,keep_ordering)`, body `out = in`. -/
def reorder_keep_into (_InnerType _OuterType : Nat) (_out in_ : storage) : Option storage :=
  some in_

/-- Lines 66-69: `template<typename InnerType,size_t length>
void reorder(InnerType *in_out,reverse_ordering)`, body
`std::reverse(in_out,in_out + length)`.  Its second template parameter is a number, so no
call in the source that names two types can select it. -/
def reorder_array (InnerType length : Nat) (in_out : storage) : Option storage :=
  std_reverse InnerType length in_out

/-- Lines 71-76: `template<typename InnerType,typename OuterType>
void reorder(OuterType &in_out,reverse_ordering)`:
`end = begin + sizeof(OuterType) / sizeof(InnerType)` and `std::reverse(begin,end)`. -/
def reorder_reverse (InnerType OuterType : Nat) (in_out : storage) : Option storage :=
  std_reverse InnerType (OuterType / InnerType) in_out

/-- Lines 78-84: `template<typename InnerType,typename OuterType>
void reorder(OuterType &out,const OuterType in,reverse_ordering)`:
`std::reverse_copy(begin,end,out_begin)` over `sizeof(OuterType) / sizeof(InnerType)`
elements. -/
def reorder_reverse_into (InnerType OuterType : Nat) (out in_ : storage) : Option storage :=
  std_reverse_copy InnerType (OuterType / InnerType) in_ out

/-- Overload resolution of a two-argument call `reorder<T1,T2>(in_out, o)` whose first
argument is an lvalue of type `arg`.  The tag picks the overload, and the explicit template
arguments bind to that overload's own parameter list: `<OuterType,InnerType>` at lines 56-59,
`<InnerType,OuterType>` at lines 71-76.  The parameter `OuterType &` binds only to an lvalue
of that very type, so the keep overload is viable when `arg` is `T1` and the reversing
overload when `arg` is `T2`; the overload of lines 66-69 wants a number as second template
argument and is never viable.  Without a viable overload the call yields nothing. -/
def reorder (T1 T2 arg : ctype) (in_out : storage) : any_ordering → Option storage
  | keep_ordering => if arg = T1 then reorder_keep T1.sizeof T2.sizeof in_out else none
  | reverse_ordering => if arg = T2 then reorder_reverse T1.sizeof T2.sizeof in_out else none

/-- Overload resolution of a three-argument call `reorder<InnerType>(out, in, o)`;
`OuterType` is deduced from the arguments. -/
def reorder_into (InnerType OuterType : Nat) (out in_ : storage) :
    any_ordering → Option storage
  | keep_ordering => reorder_keep_into InnerType OuterType out in_
  | reverse_ordering => reorder_reverse_into InnerType OuterType out in_

/-- Lines 86-90: `template<typename InnerType,typename OuterType,typename Ordering>
OuterType reorder_copy(OuterType in,Ordering o)`, body
`reorder<OuterType,InnerType>(in,o); return in;`. -/
def reorder_copy (InnerType OuterType : ctype) (in_ : storage) (o : any_ordering) :
    Option storage :=
  reorder OuterType InnerType OuterType in_ o

/-- Lines 92-98: `is_native(keep_ordering)` is true, `is_native(any_ordering)` is false. -/
def is_native : any_ordering → Bool
  | keep_ordering => true
  | _ => false

end detail

/-- Lines 135-175: `template<typename OuterType,typename OrderingType,
typename InnerType = unsigned char> struct ordered_type` with its single member `data`. -/
structure ordered_type (OuterType : ctype) (OrderingType : any_ordering) (InnerType : ctype)
    where
  data : storage
  deriving DecidableEq, Repr

namespace ordered_type

variable {OuterType InnerType : ctype} {OrderingType : any_ordering}

/-- Lines 142-144: constructor from a native value, a call `reorder<InnerType>(this->data,
init, OrderingType())`.  The member `data` is not initialised before the call, `uninit` is
whatever it holds then. -/
def construct (OuterType : ctype) (OrderingType : any_ordering) (InnerType : ctype)
    (uninit init : storage) : Option (ordered_type OuterType OrderingType InnerType) :=
  (detail.reorder_into InnerType.sizeof OuterType.sizeof uninit init OrderingType).map
    fun d => ⟨d⟩

/-- The default argument `OuterType()` of line 142: the value whose bytes are all zero. -/
def zero_value (OuterType : ctype) : storage :=
  List.replicate OuterType.sizeof 0

/-- Lines 146-148: copy constructor, `data(other.data)`; `uninit` is what the storage of the
new member holds before. -/
def copy_construct (uninit : storage) (other : ordered_type OuterType OrderingType InnerType) :
    ordered_type OuterType OrderingType InnerType :=
  ⟨copy_value OuterType uninit other.data⟩

/-- Lines 157-160: assignment from a native value. -/
def assign_value (self : ordered_type OuterType OrderingType InnerType) (init : storage) :
    Option (ordered_type OuterType OrderingType InnerType) :=
  (detail.reorder_into InnerType.sizeof OuterType.sizeof self.data init OrderingType).map
    fun d => ⟨d⟩

/-- Lines 150-155: assignment from a wrapper of the same type, `this->data = other.data`;
`same_object` says whether `this == &other`, in which case nothing is written. -/
def assign (self other : ordered_type OuterType OrderingType InnerType) (same_object : Bool) :
    ordered_type OuterType OrderingType InnerType :=
  if same_object then self else ⟨copy_value OuterType self.data other.data⟩

/-- Lines 162-164: `operator OuterType() const`, a call
`reorder_copy<InnerType>(this->data, OrderingType())`. -/
def to_OuterType (self : ordered_type OuterType OrderingType InnerType) : Option storage :=
  detail.reorder_copy InnerType OuterType self.data OrderingType

/-- Lines 166-168: `raw_get`. -/
def raw_get (self : ordered_type OuterType OrderingType InnerType) : storage :=
  self.data

/-- Lines 170-172: `raw_set`, `this->data = b`. -/
def raw_set (self : ordered_type OuterType OrderingType InnerType) (b : storage) :
    ordered_type OuterType OrderingType InnerType :=
  ⟨copy_value OuterType self.data b⟩

/-- Line 174: `static bool is_native()`. -/
def is_native (_OuterType : ctype) (OrderingType : any_ordering) (_InnerType : ctype) : Bool :=
  detail.is_native OrderingType

end ordered_type

/-- Line 181: `big_char_t`. -/
abbrev big_char_t (BIG_ENDIAN : Bool) :=
  ordered_type c_char (big_endian_ordering BIG_ENDIAN) c_unsigned_char

/-- Line 182: `big_uchar_t`. -/
abbrev big_uchar_t (BIG_ENDIAN : Bool) :=
  ordered_type c_unsigned_char (big_endian_ordering BIG_ENDIAN) c_unsigned_char

/-- Line 183: `big_schar_t`. -/
abbrev big_schar_t (BIG_ENDIAN : Bool) :=
  ordered_type c_signed_char (big_endian_ordering BIG_ENDIAN) c_unsigned_char

/-- Line 191: `big_uint_t`, for a host whose `unsigned int` has `sizeof_uint` bytes;
`InnerType` is the default `unsigned char`. -/
abbrev big_uint_t (BIG_ENDIAN : Bool) (sizeof_uint : Nat) :=
  ordered_type (c_unsigned_int sizeof_uint) (big_endian_ordering BIG_ENDIAN) c_unsigned_char

/-- Line 198: `big_long_double_t`. -/
abbrev big_long_double_t (BIG_ENDIAN : Bool) (size value_bytes : Nat) :=
  ordered_type (c_long_double size value_bytes) (big_endian_ordering BIG_ENDIAN)
    c_unsigned_char

/-- Line 210: `little_uint_t`. -/
abbrev little_uint_t (BIG_ENDIAN : Bool) (sizeof_uint : Nat) :=
  ordered_type (c_unsigned_int sizeof_uint) (little_endian_ordering BIG_ENDIAN)
    c_unsigned_char

/-- Line 229: `net_uint_t`. -/
abbrev net_uint_t (BIG_ENDIAN : Bool) (sizeof_uint : Nat) :=
  ordered_type (c_unsigned_int sizeof_uint) (net_ordering BIG_ENDIAN) c_unsigned_char

/-- Object representation of the unsigned integer `v` in `size` bytes on a little-endian
host: byte `i` in memory holds the base-256 digit of weight `256 ^ i`. -/
def native_bytes_le : Nat → Nat → storage
  | 0, _ => []
  | size + 1, v => Fin.ofNat (v % 256) :: native_bytes_le size (v / 256)

/-- Object representation of the unsigned integer `v` in `size` bytes on the host: least
significant byte first when `BIG_ENDIAN` is not defined, most significant byte first when it
is. -/
def native_bytes (BIG_ENDIAN : Bool) (size v : Nat) : storage :=
  if BIG_ENDIAN then (native_bytes_le size v).reverse else native_bytes_le size v

/-- Unsigned integer held by an object representation on a little-endian host. -/
def native_value_le : storage → Nat
  | [] => 0
  | b :: bs => b.val + 256 * native_value_le bs

/-- Unsigned integer held by an object representation on the host. -/
def native_value (BIG_ENDIAN : Bool) (mem : storage) : Nat :=
  if BIG_ENDIAN then native_value_le mem.reverse else native_value_le mem

/-- Nested ordering types (doc comment of lines 105-106): each of the `count` elements of
`size` bytes at the start of `mem` is itself reversed at `unsigned char` granularity by the
reversing overload of lines 71-76. -/
def reverse_within_elements (size : Nat) : Nat → storage → Option storage
  | 0, mem => some mem
  | count + 1, mem =>
    (detail.reorder_reverse 1 size (mem.take size)).bind fun a =>
      (reverse_within_elements size count (mem.drop size)).map fun b => a ++ b

end byte_order

namespace byte_order

open any_ordering

/-! Auxiliary facts about the element view -/

namespace detail

theorem elements_length (g c : Nat) (v : storage) : (elements g c v).length = c := by
  induction c generalizing v with
  | zero => rfl
  | succ c ih => simp [elements, ih]

theorem elements_flatten (g c : Nat) (v : storage) :
    (elements g c v).flatten = v.take (c * g) := by
  induction c generalizing v with
  | zero => simp [elements]
  | succ c ih =>
    simp only [elements, List.flatten_cons, ih]
    rw [show (c + 1) * g = g + c * g by ring, List.take_add]

theorem elements_getElem? (g c : Nat) (v : storage) (i : Nat) (hi : i < c) :
    (elements g c v)[i]? = some ((v.drop (i * g)).take g) := by
  induction c generalizing v i with
  | zero => omega
  | succ c ih =>
    cases i with
    | zero => simp [elements]
    | succ i =>
      simp only [elements, List.getElem?_cons_succ]
      rw [ih (v.drop g) i (by omega), List.drop_drop]
      congr 3
      ring

theorem elements_mem_length (g c : Nat) (v : storage) (h : c * g ≤ v.length) :
    ∀ x ∈ elements g c v, x.length = g := by
  induction c generalizing v with
  | zero => simp [elements]
  | succ c ih =>
    intro x hx
    have h1 : g + c * g ≤ v.length := by
      have : (c + 1) * g = g + c * g := by ring
      omega
    simp only [elements, List.mem_cons] at hx
    rcases hx with rfl | hx
    · simp only [List.length_take]; omega
    · exact ih (v.drop g) (by simp only [List.length_drop]; omega) x hx

theorem elements_flatten_append (g : Nat) (L : List storage) (rest : storage)
    (hL : ∀ x ∈ L, x.length = g) :
    elements g L.length (L.flatten ++ rest) = L := by
  induction L with
  | nil => rfl
  | cons x xs ih =>
    have hx : x.length = g := hL x (List.mem_cons_self _ _)
    have hxs : ∀ y ∈ xs, y.length = g := fun y hy => hL y (List.mem_cons_of_mem _ hy)
    simp only [List.length_cons, elements, List.flatten_cons, List.append_assoc]
    rw [List.take_left' hx, List.drop_left' hx, ih hxs]

theorem flatten_length_uniform (g : Nat) (L : List storage) (hL : ∀ x ∈ L, x.length = g) :
    L.flatten.length = L.length * g := by
  induction L with
  | nil => simp
  | cons x xs ih =>
    have hx : x.length = g := hL x (List.mem_cons_self _ _)
    have hxs : ∀ y ∈ xs, y.length = g := fun y hy => hL y (List.mem_cons_of_mem _ hy)
    simp only [List.flatten_cons, List.length_append, List.length_cons, ih hxs, hx]
    ring

theorem flatten_getElem?_uniform (g : Nat) (L : List storage) (hL : ∀ x ∈ L, x.length = g)
    (i j : Nat) (hj : j < g) :
    L.flatten[i * g + j]? = (L[i]?).bind fun x => x[j]? := by
  induction L generalizing i with
  | nil => simp
  | cons x xs ih =>
    have hx : x.length = g := hL x (List.mem_cons_self _ _)
    have hxs : ∀ y ∈ xs, y.length = g := fun y hy => hL y (List.mem_cons_of_mem _ hy)
    cases i with
    | zero =>
      simp only [List.flatten_cons, Nat.zero_mul, Nat.zero_add, List.getElem?_cons_zero,
        Option.some_bind]
      exact List.getElem?_append_left (by omega)
    | succ i =>
      simp only [List.flatten_cons, List.getElem?_cons_succ]
      have hge : x.length ≤ (i + 1) * g + j := by
        have : (i + 1) * g = i * g + g := by ring
        omega
      rw [List.getElem?_append_right hge, ← ih hxs i]
      congr 1
      have : (i + 1) * g = i * g + g := by ring
      omega

/-- Elements in reverse order, for a range that lies inside the storage. -/
theorem reversed_mem_length (g c : Nat) (v : storage) (h : c * g ≤ v.length) :
    ∀ x ∈ (elements g c v).reverse, x.length = g := by
  intro x hx
  exact elements_mem_length g c v h x (List.mem_reverse.mp hx)

theorem reversed_flatten_length (g c : Nat) (v : storage) (h : c * g ≤ v.length) :
    (elements g c v).reverse.flatten.length = c * g := by
  rw [flatten_length_uniform g _ (reversed_mem_length g c v h), List.length_reverse,
    elements_length]

/-- Byte `j` of element `i` ends up as byte `j` of element `c - 1 - i`. -/
theorem reversed_getElem? (g c : Nat) (v : storage) (h : c * g ≤ v.length)
    (i j : Nat) (hi : i < c) (hj : j < g) :
    (elements g c v).reverse.flatten[(c - 1 - i) * g + j]? = v[i * g + j]? := by
  rw [flatten_getElem?_uniform g _ (reversed_mem_length g c v h) _ _ hj]
  rw [List.getElem?_reverse (by rw [elements_length]; omega), elements_length]
  rw [show c - 1 - (c - 1 - i) = i by omega, elements_getElem? g c v i hi]
  simp only [Option.some_bind]
  rw [List.getElem?_take_of_lt hj, List.getElem?_drop]

theorem std_reverse_zero (g : Nat) (v : storage) : std_reverse g 0 v = some v := by
  simp [std_reverse, elements]

theorem std_reverse_one (g : Nat) (v : storage) (h : g ≤ v.length) :
    std_reverse g 1 v = some v := by
  simp [std_reverse, elements, h]

/-- Reversing the same range twice restores the storage. -/
theorem std_reverse_twice (g c : Nat) (v : storage) (h : c * g ≤ v.length) :
    (std_reverse g c v).bind (std_reverse g c) = some v := by
  have hlen := reversed_flatten_length g c v h
  have hmem := reversed_mem_length g c v h
  have hc : (elements g c v).reverse.length = c := by
    rw [List.length_reverse, elements_length]
  have hel : elements g c ((elements g c v).reverse.flatten ++ v.drop (c * g))
      = (elements g c v).reverse := by
    have := elements_flatten_append g (elements g c v).reverse (v.drop (c * g)) hmem
    rwa [hc] at this
  have hle : c * g ≤ ((elements g c v).reverse.flatten ++ v.drop (c * g)).length := by
    rw [List.length_append, hlen]; omega
  simp only [std_reverse, if_pos h, Option.some_bind, if_pos hle, hel, List.reverse_reverse,
    elements_flatten, List.drop_left' hlen, List.take_append_drop]

/-- At byte granularity the element reversal is the reversal of the byte list. -/
theorem elements_byte (c : Nat) (v : storage) (h : c ≤ v.length) :
    elements 1 c v = (v.take c).map fun b => [b] := by
  induction c generalizing v with
  | zero => simp [elements]
  | succ c ih =>
    cases v with
    | nil => simp at h
    | cons b bs =>
      have hb : c ≤ bs.length := by simpa using h
      simp [elements, ih bs hb]

theorem flatten_map_singleton (l : storage) : (l.map fun b => [b]).flatten = l := by
  induction l with
  | nil => rfl
  | cons b bs ih => simp [ih]

theorem reorder_reverse_byte (n : Nat) (v : storage) (h : v.length = n) :
    reorder_reverse 1 n v = some v.reverse := by
  subst h
  simp only [reorder_reverse, std_reverse, Nat.div_one, Nat.mul_one, le_refl, if_true]
  rw [elements_byte _ v (le_refl _), List.take_length, ← List.map_reverse,
    flatten_map_singleton, List.drop_length, List.append_nil]

theorem reorder_reverse_into_byte (n : Nat) (out v : storage) (h : v.length = n)
    (ho : out.length = n) : reorder_reverse_into 1 n out v = some v.reverse := by
  subst h
  simp only [reorder_reverse_into, std_reverse_copy, Nat.div_one, Nat.mul_one, le_refl, ho,
    and_self, if_true]
  rw [elements_byte _ v (le_refl _), List.take_length, ← List.map_reverse,
    flatten_map_singleton, ← ho, List.drop_length, List.append_nil]

/-- Under the keep policy the call inside `reorder_copy` selects the empty overload. -/
theorem reorder_copy_keep (InnerType OuterType : ctype) (v : storage) :
    reorder_copy InnerType OuterType v keep_ordering = some v := by
  simp [reorder_copy, reorder, reorder_keep]

/-- Under the reverse policy the call `reorder<OuterType,InnerType>(in,o)` inside
`reorder_copy` has no viable overload unless the two types are one and the same. -/
theorem reorder_copy_reverse_of_ne (InnerType OuterType : ctype) (v : storage)
    (h : OuterType ≠ InnerType) :
    reorder_copy InnerType OuterType v reverse_ordering = none := by
  simp [reorder_copy, reorder, h]

/-- Index description of the reversing overload on a value of `n` elements of `g` bytes. -/
theorem reorder_reverse_spec (g n : Nat) (v : storage) (hv : v.length = n * g) :
    ∃ r, reorder_reverse g (n * g) v = some r ∧ r.length = n * g ∧
      ∀ i j, i < n → j < g → r[(n - 1 - i) * g + j]? = v[i * g + j]? := by
  rcases Nat.eq_zero_or_pos g with h0 | hpos
  · subst h0
    have hv0 : v = [] := List.length_eq_zero.mp (by simpa using hv)
    subst hv0
    exact ⟨[], by simp [reorder_reverse, std_reverse, elements], by simp,
      fun i j _ hj => absurd hj (Nat.not_lt_zero j)⟩
  · have hc : n * g / g = n := Nat.mul_div_cancel n hpos
    have hle : n * g ≤ v.length := by omega
    refine ⟨(elements g n v).reverse.flatten, ?_, reversed_flatten_length g n v hle, ?_⟩
    · simp only [reorder_reverse, std_reverse, hc, if_pos hle]
      rw [List.drop_of_length_le (by omega), List.append_nil]
    · intro i j hi hj
      exact reversed_getElem? g n v hle i j hi hj

/-- Every element of an all-equal storage is the same all-equal element. -/
theorem elements_replicate (g c n : Nat) (x : byte) (h : c * g ≤ n) :
    elements g c (List.replicate n x) = List.replicate c (List.replicate g x) := by
  induction c generalizing n with
  | zero => rfl
  | succ c ih =>
    have h1 : g + c * g ≤ n := by
      have : (c + 1) * g = g + c * g := by ring
      omega
    simp only [elements, List.take_replicate, List.drop_replicate, List.replicate_succ]
    rw [ih (n - g) (by omega), Nat.min_eq_left (by omega)]

theorem reorder_reverse_into_replicate (g n : Nat) (x : byte) (out : storage) (hd : g ∣ n)
    (ho : out.length = n) :
    reorder_reverse_into g n out (List.replicate n x) = some (List.replicate n x) := by
  have hc : n / g * g = n := Nat.div_mul_cancel hd
  simp only [reorder_reverse_into, std_reverse_copy, hc, List.length_replicate, ho, le_refl,
    and_self, if_true]
  rw [elements_replicate g (n / g) n x (by omega), List.reverse_replicate,
    List.flatten_replicate_replicate, hc, ← ho, List.drop_length, List.append_nil]

end detail

/-! Read/write symmetry and round trip -/

/-- C1 (code at the failing input): with `BIG_ENDIAN` not defined, a `big_uint_t` built from
the native bytes `78 56 34 12` of `0x12345678` stores them reversed, `12 34 56 78`.  The
conversion operator then calls `reorder<unsigned int,unsigned char>` on an `unsigned int`
under the reverse policy, for which no overload is viable, so it does not yield the value the
wrapper was built from. -/
theorem C1_read_back_big_uint :
    (ordered_type.construct (c_unsigned_int 4) (big_endian_ordering false) c_unsigned_char
        [0, 0, 0, 0] (native_bytes false 4 0x12345678) : Option (big_uint_t false 4))
      = some ⟨[0x12, 0x34, 0x56, 0x78]⟩ ∧
    (⟨[0x12, 0x34, 0x56, 0x78]⟩ : big_uint_t false 4).to_OuterType = none ∧
    ((ordered_type.construct (c_unsigned_int 4) (big_endian_ordering false) c_unsigned_char
        [0, 0, 0, 0] (native_bytes false 4 0x12345678) : Option (big_uint_t false 4)).bind
        ordered_type.to_OuterType) ≠ some (native_bytes false 4 0x12345678) := by
  decide

/-- C2 (code at the failing input): under the reverse policy `reorder_copy` at byte
granularity yields nothing for the 4-byte value `78 56 34 12`, so applying it twice does not
give the value back; under the keep policy it returns its argument, and the reversing
overload itself, called at any granularity, is undone by a second call. -/
theorem C2_round_trip_big_uint :
    detail.reorder_copy c_unsigned_char (c_unsigned_int 4) [0x78, 0x56, 0x34, 0x12]
        reverse_ordering = none ∧
    ((detail.reorder_copy c_unsigned_char (c_unsigned_int 4) [0x78, 0x56, 0x34, 0x12]
        reverse_ordering).bind fun t =>
        detail.reorder_copy c_unsigned_char (c_unsigned_int 4) t reverse_ordering)
      ≠ some [0x78, 0x56, 0x34, 0x12] ∧
    (∀ v : storage,
      ((detail.reorder_copy c_unsigned_char (c_unsigned_int 4) v keep_ordering).bind fun t =>
        detail.reorder_copy c_unsigned_char (c_unsigned_int 4) t keep_ordering) = some v) ∧
    (∀ (g n : Nat) (v : storage), v.length = n →
      ((detail.reorder_reverse g n v).bind (detail.reorder_reverse g n)) = some v) := by
  refine ⟨by decide, by decide, ?_, ?_⟩
  · intro v
    rw [detail.reorder_copy_keep, Option.some_bind, detail.reorder_copy_keep]
  · intro g n v hv
    exact detail.std_reverse_twice g (n / g) v (by rw [hv]; exact Nat.div_mul_le_self n g)

/-- C3 (code at the failing input): the raw storage of a `big_uint_t` built from the bytes
`78 56 34 12` is the byte-reversed value `12 34 56 78`, while `reorder_copy` of the same
value under the same policy yields nothing, so the two are not equal. -/
theorem C3_raw_storage_big_uint :
    ((ordered_type.construct (c_unsigned_int 4) (big_endian_ordering false) c_unsigned_char
        [0, 0, 0, 0] [0x78, 0x56, 0x34, 0x12] : Option (big_uint_t false 4)).map
        ordered_type.raw_get) = some [0x12, 0x34, 0x56, 0x78] ∧
    detail.reorder_copy c_unsigned_char (c_unsigned_int 4) [0x78, 0x56, 0x34, 0x12]
        (big_endian_ordering false) = none := by
  decide

/-- C4 (code at the failing input): for a `big_uint_t` with `BIG_ENDIAN` not defined,
`reorder_copy` of the bytes `78 56 34 12` yields nothing that `raw_set` could be given, and
after `raw_set` of the reversed bytes `12 34 56 78` the conversion operator yields nothing
either; `raw_set(b)` followed by `raw_get()` does return `b`. -/
theorem C4_raw_set_read_back_big_uint :
    ((detail.reorder_copy c_unsigned_char (c_unsigned_int 4) [0x78, 0x56, 0x34, 0x12]
        (big_endian_ordering false)).bind fun t =>
        ((⟨[0, 0, 0, 0]⟩ : big_uint_t false 4).raw_set t).to_OuterType) = none ∧
    ((⟨[0, 0, 0, 0]⟩ : big_uint_t false 4).raw_set [0x12, 0x34, 0x56, 0x78]).to_OuterType
      = none ∧
    (∀ (w : big_uint_t false 4) (b : storage), b.length = 4 → w.data.length = 4 →
      (w.raw_set b).raw_get = b) := by
  refine ⟨by decide, by decide, ?_⟩
  intro w b hb hw
  show List.take 4 b ++ List.drop 4 w.data = b
  rw [List.take_of_length_le (by omega), List.drop_of_length_le (by omega), List.append_nil]

/-! Reversal at a granularity -/

/-- C5: for a value made of `n` elements of `g` bytes, the reversing overloads (in place and
into a destination) put byte `j` of element `i` at byte `j` of element `n - 1 - i`; the four
bytes `A B C D` reversed at two-byte granularity are `C D A B`, which for `0A 0B 0C 0D` is not
the byte-wise flip `0D 0C 0B 0A`. -/
theorem C5_reverse_moves_elements (g n : Nat) (v out : storage) (hv : v.length = n * g)
    (ho : out.length = n * g) :
    (∃ r, detail.reorder_reverse g (n * g) v = some r ∧
      detail.reorder_reverse_into g (n * g) out v = some r ∧ r.length = n * g ∧
      ∀ i j, i < n → j < g → r[(n - 1 - i) * g + j]? = v[i * g + j]?) ∧
    (∀ A B C D : byte, detail.reorder_reverse 2 4 [A, B, C, D] = some [C, D, A, B]) ∧
    detail.reorder_reverse 2 4 [0xA, 0xB, 0xC, 0xD] ≠ some [0xD, 0xC, 0xB, 0xA] := by
  refine ⟨?_, ?_, by decide⟩
  · rcases Nat.eq_zero_or_pos g with h0 | hpos
    · subst h0
      have hv0 : v = [] := List.length_eq_zero.mp (by simpa using hv)
      have ho0 : out = [] := List.length_eq_zero.mp (by simpa using ho)
      subst hv0 ho0
      exact ⟨[], by simp [detail.reorder_reverse, detail.std_reverse, detail.elements],
        by simp [detail.reorder_reverse_into, detail.std_reverse_copy, detail.elements],
        by simp, fun i j _ hj => absurd hj (Nat.not_lt_zero j)⟩
    · have hc : n * g / g = n := Nat.mul_div_cancel n hpos
      have hle : n * g ≤ v.length := by omega
      have hlen := detail.reversed_flatten_length g n v hle
      refine ⟨(detail.elements g n v).reverse.flatten, ?_, ?_, hlen, ?_⟩
      · simp only [detail.reorder_reverse, detail.std_reverse, hc, if_pos hle]
        rw [List.drop_of_length_le (by omega), List.append_nil]
      · simp only [detail.reorder_reverse_into, detail.std_reverse_copy, hc]
        rw [if_pos ⟨hle, by omega⟩, List.drop_of_length_le (by omega), List.append_nil]
      · intro i j hi hj
        exact detail.reversed_getElem? g n v hle i j hi hj
  · intro A B C D
    simp [detail.reorder_reverse, detail.std_reverse, detail.elements]

theorem C5_reverse_moves_elements_witness :
    (∃ r, detail.reorder_reverse 2 (3 * 2) [1, 2, 3, 4, 5, 6] = some r ∧
      detail.reorder_reverse_into 2 (3 * 2) [0, 0, 0, 0, 0, 0] [1, 2, 3, 4, 5, 6] = some r ∧
      r.length = 3 * 2 ∧
      ∀ i j, i < 3 → j < 2 →
        r[(3 - 1 - i) * 2 + j]? = ([1, 2, 3, 4, 5, 6] : storage)[i * 2 + j]?) ∧
    (∀ A B C D : byte, detail.reorder_reverse 2 4 [A, B, C, D] = some [C, D, A, B]) ∧
    detail.reorder_reverse 2 4 [0xA, 0xB, 0xC, 0xD] ≠ some [0xD, 0xC, 0xB, 0xA] :=
  C5_reverse_moves_elements 2 3 [1, 2, 3, 4, 5, 6] [0, 0, 0, 0, 0, 0] (by decide) (by decide)

/-- C6 (claim as stated, refuted): with `BIG_ENDIAN` not defined the raw bytes of a
`big_uint_t` holding `0x12345678` are not `78 56 34 12` in memory order; those are the native
bytes of the value before it is stored. -/
theorem C6_raw_bytes_not_native :
    native_bytes false 4 0x12345678 = [0x78, 0x56, 0x34, 0x12] ∧
    ((ordered_type.construct (c_unsigned_int 4) (big_endian_ordering false) c_unsigned_char
        [0, 0, 0, 0] (native_bytes false 4 0x12345678) : Option (big_uint_t false 4)).map
        ordered_type.raw_get) ≠ some [0x78, 0x56, 0x34, 0x12] := by
  decide

/-- C6 (amended): with `BIG_ENDIAN` not defined, the 4-byte unsigned integer `0x12345678`
stored in a `big_uint_t` has the raw bytes `12 34 56 78` in memory order, whatever the member
held before construction. -/
theorem C6_raw_bytes_big_uint (uninit : storage) (hu : uninit.length = 4) :
    ((ordered_type.construct (c_unsigned_int 4) (big_endian_ordering false) c_unsigned_char
        uninit (native_bytes false 4 0x12345678) : Option (big_uint_t false 4)).map
        ordered_type.raw_get) = some [0x12, 0x34, 0x56, 0x78] := by
  have h := detail.reorder_reverse_into_byte 4 uninit (native_bytes false 4 0x12345678)
    (by decide) hu
  show Option.map ordered_type.raw_get (Option.map (fun d => (⟨d⟩ : big_uint_t false 4))
    (detail.reorder_reverse_into 1 4 uninit (native_bytes false 4 0x12345678))) = _
  rw [h]
  decide

theorem C6_raw_bytes_big_uint_witness :
    ((ordered_type.construct (c_unsigned_int 4) (big_endian_ordering false) c_unsigned_char
        [0xAA, 0xBB, 0xCC, 0xDD] (native_bytes false 4 0x12345678) :
        Option (big_uint_t false 4)).map
        ordered_type.raw_get) = some [0x12, 0x34, 0x56, 0x78] :=
  C6_raw_bytes_big_uint [0xAA, 0xBB, 0xCC, 0xDD] (by decide)

/-! Identity policy, native check and policy resolution -/

/-- C8: `is_native()` of a wrapper is true exactly when its ordering policy is
`keep_ordering` and false for `reverse_ordering`; for either setting of `BIG_ENDIAN` it is
true for exactly one of the big-endian and little-endian wrappers of a value type, and the
net wrapper agrees with the big-endian one. -/
theorem C8_is_native_iff_keep (OuterType InnerType : ctype) :
    (∀ P, ordered_type.is_native OuterType P InnerType = true ↔ P = keep_ordering) ∧
    ordered_type.is_native OuterType reverse_ordering InnerType = false ∧
    (∀ BIG_ENDIAN,
      ordered_type.is_native OuterType (big_endian_ordering BIG_ENDIAN) InnerType
        = !ordered_type.is_native OuterType (little_endian_ordering BIG_ENDIAN) InnerType) ∧
    (∀ BIG_ENDIAN,
      ordered_type.is_native OuterType (net_ordering BIG_ENDIAN) InnerType
        = ordered_type.is_native OuterType (big_endian_ordering BIG_ENDIAN) InnerType) := by
  refine ⟨?_, rfl, ?_, fun _ => rfl⟩
  · intro P
    cases P <;> simp [ordered_type.is_native, detail.is_native]
  · intro b
    cases b <;> rfl

/-- C9: without `BIG_ENDIAN`, `little_endian_ordering` is `keep_ordering` and
`big_endian_ordering` is `reverse_ordering`; with it, `big_endian_ordering` is
`keep_ordering` and `little_endian_ordering` is `reverse_ordering`; in both cases
`net_ordering` is `big_endian_ordering`. -/
theorem C9_policy_resolution :
    (little_endian_ordering false = keep_ordering ∧
      big_endian_ordering false = reverse_ordering) ∧
    (big_endian_ordering true = keep_ordering ∧
      little_endian_ordering true = reverse_ordering) ∧
    ∀ BIG_ENDIAN, net_ordering BIG_ENDIAN = big_endian_ordering BIG_ENDIAN :=
  ⟨⟨rfl, rfl⟩, ⟨rfl, rfl⟩, fun _ => rfl⟩

/-! Value size that is not a multiple of the granularity -/

/-- C10 (claim as stated, refuted): a 5-byte value at 2-byte granularity is not rejected.  The
in-place reversal returns a result in which the first two elements are swapped and the fifth
byte stays; the reversal into a destination leaves the destination's fifth byte as it was. -/
theorem C10_not_rejected :
    ¬ (2 ∣ 5) ∧
    detail.reorder_reverse 2 5 [1, 2, 3, 4, 5] = some [3, 4, 1, 2, 5] ∧
    detail.reorder (ctype.plain (type_name.other 0) 2) (ctype.plain (type_name.other 1) 5)
        (ctype.plain (type_name.other 1) 5) [1, 2, 3, 4, 5] reverse_ordering ≠ none ∧
    detail.reorder_reverse_into 2 5 [9, 9, 9, 9, 9] [1, 2, 3, 4, 5] = some [3, 4, 1, 2, 9] := by
  decide

/-- C10 (amended): for every value size `n` and granularity `g`, multiple or not, the
reverse-policy reorder produces a result: the first `n / g` elements of `g` bytes appear in
reverse order and the remaining `n % g` bytes are left as they were (in the destination, for
the form that writes into one). -/
theorem C10_reverse_truncates (g n : Nat) (v out : storage) (hv : v.length = n)
    (ho : out.length = n) :
    (∃ r, detail.reorder_reverse g n v = some r ∧ r.length = n ∧
      (∀ i j, i < n / g → j < g → r[(n / g - 1 - i) * g + j]? = v[i * g + j]?) ∧
      (∀ k, n / g * g ≤ k → r[k]? = v[k]?)) ∧
    (∃ r, detail.reorder_reverse_into g n out v = some r ∧ r.length = n ∧
      (∀ i j, i < n / g → j < g → r[(n / g - 1 - i) * g + j]? = v[i * g + j]?) ∧
      (∀ k, n / g * g ≤ k → r[k]? = out[k]?)) := by
  have hle : n / g * g ≤ n := Nat.div_mul_le_self n g
  have hlev : n / g * g ≤ v.length := by omega
  have hleo : n / g * g ≤ out.length := by omega
  have hlen := detail.reversed_flatten_length g (n / g) v hlev
  have key : ∀ mem : storage, mem.length = n →
      ((detail.elements g (n / g) v).reverse.flatten ++ mem.drop (n / g * g)).length = n ∧
      (∀ i j, i < n / g → j < g →
        ((detail.elements g (n / g) v).reverse.flatten ++ mem.drop (n / g * g))[
          (n / g - 1 - i) * g + j]? = v[i * g + j]?) ∧
      (∀ k, n / g * g ≤ k →
        ((detail.elements g (n / g) v).reverse.flatten ++ mem.drop (n / g * g))[k]?
          = mem[k]?) := by
    intro mem hm
    refine ⟨?_, ?_, ?_⟩
    · rw [List.length_append, hlen, List.length_drop]; omega
    · intro i j hi hj
      have hlt : (n / g - 1 - i) * g + j < n / g * g := by
        have h1 : (n / g - 1 - i) + 1 ≤ n / g := by omega
        have h2 := Nat.mul_le_mul_right g h1
        have h3 : ((n / g - 1 - i) + 1) * g = (n / g - 1 - i) * g + g := by ring
        omega
      rw [List.getElem?_append_left (by rw [hlen]; exact hlt)]
      exact detail.reversed_getElem? g (n / g) v hlev i j hi hj
    · intro k hk
      rw [List.getElem?_append_right (by rw [hlen]; exact hk), hlen, List.getElem?_drop]
      congr 1
      omega
  constructor
  · refine ⟨_, ?_, key v hv⟩
    simp only [detail.reorder_reverse, detail.std_reverse, if_pos hlev]
  · refine ⟨_, ?_, key out ho⟩
    simp only [detail.reorder_reverse_into, detail.std_reverse_copy]
    rw [if_pos ⟨hlev, hleo⟩]

theorem C10_reverse_truncates_witness :
    (∃ r, detail.reorder_reverse 2 5 [1, 2, 3, 4, 5] = some r ∧ r.length = 5 ∧
      (∀ i j, i < 5 / 2 → j < 2 →
        r[(5 / 2 - 1 - i) * 2 + j]? = ([1, 2, 3, 4, 5] : storage)[i * 2 + j]?) ∧
      (∀ k, 5 / 2 * 2 ≤ k → r[k]? = ([1, 2, 3, 4, 5] : storage)[k]?)) ∧
    (∃ r, detail.reorder_reverse_into 2 5 [9, 9, 9, 9, 9] [1, 2, 3, 4, 5] = some r ∧
      r.length = 5 ∧
      (∀ i j, i < 5 / 2 → j < 2 →
        r[(5 / 2 - 1 - i) * 2 + j]? = ([1, 2, 3, 4, 5] : storage)[i * 2 + j]?) ∧
      (∀ k, 5 / 2 * 2 ≤ k → r[k]? = ([9, 9, 9, 9, 9] : storage)[k]?)) :=
  C10_reverse_truncates 2 5 [1, 2, 3, 4, 5] [9, 9, 9, 9, 9] (by decide) (by decide)

/-! Assignment and copy -/

/-- C11 (code at the failing input): with `BIG_ENDIAN` not defined, assigning the native
bytes `78 56 34 12` to a `big_uint_t` leaves the raw bytes `12 34 56 78`, whatever the wrapper
held before; `reorder_copy` of the same value yields nothing, and neither does the conversion
operator of the wrapper assigned to. -/
theorem C11_assign_value_big_uint :
    (∀ w : big_uint_t false 4, w.data.length = 4 →
      (w.assign_value [0x78, 0x56, 0x34, 0x12]).map ordered_type.raw_get
        = some [0x12, 0x34, 0x56, 0x78]) ∧
    detail.reorder_copy c_unsigned_char (c_unsigned_int 4) [0x78, 0x56, 0x34, 0x12]
        (big_endian_ordering false) = none ∧
    (((⟨[0, 0, 0, 0]⟩ : big_uint_t false 4).assign_value [0x78, 0x56, 0x34, 0x12]).bind
        ordered_type.to_OuterType) = none := by
  refine ⟨?_, by decide, by decide⟩
  intro w hw
  show Option.map ordered_type.raw_get (Option.map (fun d => (⟨d⟩ : big_uint_t false 4))
    (detail.reorder_reverse_into 1 4 w.data [0x78, 0x56, 0x34, 0x12])) = _
  rw [detail.reorder_reverse_into_byte 4 w.data _ (by decide) hw]
  decide

/-- C12 (code at the failing inputs): with `BIG_ENDIAN` not defined, assignment between two
`big_uint_t` and copy construction take over the four raw bytes and self-assignment changes
nothing, but none of the wrappers involved can be read back, the conversion operator yields
nothing; and between two `big_long_double_t` of 16 bytes with 10 value bytes the assignment
transfers the first 10 raw bytes only, so the raw storage of the destination is not that of
the source. -/
theorem C12_copy_big_uint_and_long_double :
    (∀ (a b : big_uint_t false 4) (uninit : storage), a.data.length = 4 →
      b.data.length = 4 → uninit.length = 4 →
      (a.assign b false).raw_get = b.raw_get ∧
      (ordered_type.copy_construct uninit b).raw_get = b.raw_get ∧
      a.assign a true = a ∧
      (a.assign b false).to_OuterType = none ∧
      (ordered_type.copy_construct uninit b).to_OuterType = none ∧
      b.to_OuterType = none) ∧
    (((⟨[0, 0, 0, 0, 0, 0, 0, 0, 0, 0, 0, 0, 0, 0, 0, 0]⟩ :
        big_long_double_t false 16 10).assign
        ⟨[1, 2, 3, 4, 5, 6, 7, 8, 9, 10, 11, 12, 13, 14, 15, 16]⟩ false).raw_get
      = [1, 2, 3, 4, 5, 6, 7, 8, 9, 10, 0, 0, 0, 0, 0, 0]) ∧
    (((⟨[0, 0, 0, 0, 0, 0, 0, 0, 0, 0, 0, 0, 0, 0, 0, 0]⟩ :
        big_long_double_t false 16 10).assign
        ⟨[1, 2, 3, 4, 5, 6, 7, 8, 9, 10, 11, 12, 13, 14, 15, 16]⟩ false).raw_get
      ≠ (⟨[1, 2, 3, 4, 5, 6, 7, 8, 9, 10, 11, 12, 13, 14, 15, 16]⟩ :
        big_long_double_t false 16 10).raw_get) := by
  refine ⟨?_, by decide, by decide⟩
  intro a b uninit ha hb hu
  have hne : c_unsigned_int 4 ≠ c_unsigned_char := by decide
  refine ⟨?_, ?_, rfl, detail.reorder_copy_reverse_of_ne _ _ _ hne,
    detail.reorder_copy_reverse_of_ne _ _ _ hne, detail.reorder_copy_reverse_of_ne _ _ _ hne⟩
  · show List.take 4 b.data ++ List.drop 4 a.data = b.data
    rw [List.take_of_length_le (by omega), List.drop_of_length_le (by omega), List.append_nil]
  · show List.take 4 b.data ++ List.drop 4 uninit = b.data
    rw [List.take_of_length_le (by omega), List.drop_of_length_le (by omega), List.append_nil]

/-- C13 (code at the failing input): for every one-byte value the reversing overloads and
the keep overloads at byte granularity leave the byte unchanged, and an `unsigned char`
wrapper of big, little or net order stores the byte and returns it for either setting of
`BIG_ENDIAN`; but with `BIG_ENDIAN` not defined a `big_char_t` or `big_schar_t`, which
stores the byte as well, cannot return it: the conversion operator yields nothing. -/
theorem C13_single_byte (b u : byte) (p : any_ordering) (BIG_ENDIAN : Bool) :
    (detail.reorder_reverse 1 1 [b] = some [b] ∧ detail.reorder_keep 1 1 [b] = some [b] ∧
      detail.reorder_into 1 1 [u] [b] p = some [b]) ∧
    (ordered_type.construct c_unsigned_char (big_endian_ordering BIG_ENDIAN) c_unsigned_char
        [u] [b] = some ⟨[b]⟩ ∧
      (⟨[b]⟩ : big_uchar_t BIG_ENDIAN).to_OuterType = some [b]) ∧
    (ordered_type.construct c_unsigned_char (little_endian_ordering BIG_ENDIAN)
        c_unsigned_char [u] [b] = some ⟨[b]⟩ ∧
      (⟨[b]⟩ : ordered_type c_unsigned_char (little_endian_ordering BIG_ENDIAN)
        c_unsigned_char).to_OuterType = some [b]) ∧
    (ordered_type.construct c_unsigned_char (net_ordering BIG_ENDIAN) c_unsigned_char
        [u] [b] = some ⟨[b]⟩ ∧
      (⟨[b]⟩ : ordered_type c_unsigned_char (net_ordering BIG_ENDIAN)
        c_unsigned_char).to_OuterType = some [b]) ∧
    (ordered_type.construct c_char (big_endian_ordering false) c_unsigned_char [u] [b]
        = some ⟨[b]⟩ ∧
      (⟨[b]⟩ : big_char_t false).to_OuterType = none) ∧
    (ordered_type.construct c_signed_char (big_endian_ordering false) c_unsigned_char [u] [b]
        = some ⟨[b]⟩ ∧
      (⟨[b]⟩ : big_schar_t false).to_OuterType = none) := by
  cases p <;> cases BIG_ENDIAN <;>
    exact ⟨⟨rfl, rfl, rfl⟩, ⟨rfl, rfl⟩, ⟨rfl, rfl⟩, ⟨rfl, rfl⟩, ⟨rfl, rfl⟩, ⟨rfl, rfl⟩⟩

/-! Repeated reversal and default construction -/

/-- C14 (claim as stated, refuted): the two-byte value `07 07` has more than one element at
byte granularity, and reversing it a second time gives the once-reversed value again, with the
in-place reversing overload and with the one writing into a destination; `reorder_copy`
yields nothing here, applied once or twice, so its two results do not differ either. -/
theorem C14_second_reversal_same :
    ((detail.reorder_reverse 1 2 [7, 7]).bind (detail.reorder_reverse 1 2))
      = detail.reorder_reverse 1 2 [7, 7] ∧
    detail.reorder_reverse 1 2 [7, 7] = some [7, 7] ∧
    ((detail.reorder_into 1 2 [0, 0] [7, 7] reverse_ordering).bind fun t =>
        detail.reorder_into 1 2 [0, 0] t reverse_ordering)
      = detail.reorder_into 1 2 [0, 0] [7, 7] reverse_ordering ∧
    ((detail.reorder_copy c_unsigned_char (c_unsigned_short 2) [7, 7] reverse_ordering).bind
        fun t => detail.reorder_copy c_unsigned_char (c_unsigned_short 2) t reverse_ordering)
      = detail.reorder_copy c_unsigned_char (c_unsigned_short 2) [7, 7] reverse_ordering := by
  decide

/-- C14 (amended): for a value `v` of `n` elements of `g` bytes the reversing overload puts
element `i` at position `n - 1 - i`, and applied to its own result it gives `v` back; the
twice-reversed value `v` therefore differs from the once-reversed value exactly when some
element `i` of `v` differs from element `n - 1 - i`. -/
theorem C14_reverse_twice_vs_once (g n : Nat) (v : storage) (hv : v.length = n * g) :
    ∃ r, detail.reorder_reverse g (n * g) v = some r ∧
      (∀ i j, i < n → j < g → r[(n - 1 - i) * g + j]? = v[i * g + j]?) ∧
      detail.reorder_reverse g (n * g) r = some v ∧
      (v ≠ r ↔ ∃ i j, i < n ∧ j < g ∧ v[(n - 1 - i) * g + j]? ≠ v[i * g + j]?) := by
  obtain ⟨r, hr, hlen, hidx⟩ := detail.reorder_reverse_spec g n v hv
  have htwice : ((detail.reorder_reverse g (n * g) v).bind (detail.reorder_reverse g (n * g)))
      = some v :=
    detail.std_reverse_twice g (n * g / g) v (by rw [hv]; exact Nat.div_mul_le_self _ g)
  rw [hr, Option.some_bind] at htwice
  refine ⟨r, hr, hidx, htwice, ?_⟩
  constructor
  · intro hne
    by_contra hall
    apply hne
    apply List.ext_getElem?
    intro k
    by_cases hk : k < n * g
    · have hg : 0 < g := by
        rcases Nat.eq_zero_or_pos g with h0 | h
        · subst h0; simp at hk
        · exact h
      obtain ⟨q, j, hq, hj, hkd⟩ : ∃ q j, q < n ∧ j < g ∧ q * g + j = k :=
        ⟨k / g, k % g, (Nat.div_lt_iff_lt_mul hg).mpr hk, Nat.mod_lt k hg,
          by rw [Nat.mul_comm]; exact Nat.div_add_mod k g⟩
      have h1 := hidx (n - 1 - q) j (by omega) hj
      rw [show n - 1 - (n - 1 - q) = q by omega, hkd] at h1
      have h2 : v[(n - 1 - q) * g + j]? = v[q * g + j]? := by
        by_contra hc
        exact hall ⟨q, j, hq, hj, hc⟩
      rw [hkd] at h2
      rw [h1, h2]
    · rw [List.getElem?_eq_none (by omega), List.getElem?_eq_none (by omega)]
  · rintro ⟨i, j, hi, hj, hne⟩ heq
    apply hne
    have h1 := hidx i j hi hj
    rw [← heq] at h1
    exact h1

theorem C14_reverse_twice_vs_once_witness :
    ∃ r, detail.reorder_reverse 1 (2 * 1) [1, 2] = some r ∧
      (∀ i j, i < 2 → j < 1 → r[(2 - 1 - i) * 1 + j]? = ([1, 2] : storage)[i * 1 + j]?) ∧
      detail.reorder_reverse 1 (2 * 1) r = some [1, 2] ∧
      (([1, 2] : storage) ≠ r ↔ ∃ i j, i < 2 ∧ j < 1 ∧
        ([1, 2] : storage)[(2 - 1 - i) * 1 + j]? ≠ ([1, 2] : storage)[i * 1 + j]?) :=
  C14_reverse_twice_vs_once 1 2 [1, 2] (by decide)

/-- C15 (code at the failing input): with `BIG_ENDIAN` not defined, a `big_uint_t`
constructed from the default argument, the value whose bytes are all zero, holds all-zero raw
storage whatever the member held before, but the conversion operator yields nothing instead
of zero, and `reorder_copy` of the zero value yields nothing; the keep-policy wrapper
`little_uint_t` is read back as zero. -/
theorem C15_default_construct_big_uint :
    (∀ uninit : storage, uninit.length = 4 →
      (ordered_type.construct (c_unsigned_int 4) (big_endian_ordering false) c_unsigned_char
        uninit (ordered_type.zero_value (c_unsigned_int 4)) : Option (big_uint_t false 4))
        = some ⟨[0, 0, 0, 0]⟩) ∧
    (⟨[0, 0, 0, 0]⟩ : big_uint_t false 4).to_OuterType = none ∧
    detail.reorder_copy c_unsigned_char (c_unsigned_int 4)
        (ordered_type.zero_value (c_unsigned_int 4)) (big_endian_ordering false) = none ∧
    (⟨[0, 0, 0, 0]⟩ : little_uint_t false 4).to_OuterType = some [0, 0, 0, 0] := by
  refine ⟨?_, by decide, by decide, by decide⟩
  intro uninit hu
  show Option.map _ (detail.reorder_reverse_into 1 4 uninit (List.replicate 4 0)) = _
  rw [detail.reorder_reverse_into_replicate 1 4 0 uninit (by decide) hu]
  rfl

/-! The two reversing forms and the conversion operator -/

/-- C16 (code at the failing input): for the bytes `78 56 34 12` under the reverse policy at
byte granularity, the three-argument `reorder` leaves `12 34 56 78` in the destination for
either prior content, as the in-place reversing overload does, but `reorder_copy` yields
nothing. -/
theorem C16_into_versus_copy :
    detail.reorder_into 1 4 [0, 0, 0, 0] [0x78, 0x56, 0x34, 0x12] reverse_ordering
      = some [0x12, 0x34, 0x56, 0x78] ∧
    detail.reorder_into 1 4 [9, 9, 9, 9] [0x78, 0x56, 0x34, 0x12] reverse_ordering
      = some [0x12, 0x34, 0x56, 0x78] ∧
    detail.reorder_reverse 1 4 [0x78, 0x56, 0x34, 0x12] = some [0x12, 0x34, 0x56, 0x78] ∧
    detail.reorder_copy c_unsigned_char (c_unsigned_int 4) [0x78, 0x56, 0x34, 0x12]
        reverse_ordering = none := by
  decide

/-- C17 (code at the failing input): a 4-byte wrapper of reverse policy at 2-byte
granularity built from `0A 0B 0C 0D` stores `0C 0D 0A 0B`, two elements reversed.  The call
in its conversion operator names the reversing overload with element size 4 and total size
2, which covers no element and accepts only an argument of the 2-byte type; for the 4-byte
member no overload is viable and the conversion does not yield the value the wrapper was
built from. -/
theorem C17_read_back_two_byte_granularity :
    ordered_type.construct (c_unsigned_int 4) reverse_ordering (c_unsigned_short 2)
        [0, 0, 0, 0] [0xA, 0xB, 0xC, 0xD] = some ⟨[0xC, 0xD, 0xA, 0xB]⟩ ∧
    (∀ x : storage,
      detail.reorder (c_unsigned_int 4) (c_unsigned_short 2) (c_unsigned_short 2) x
        reverse_ordering = detail.reorder_reverse 4 2 x) ∧
    (2 / 4 = 0 ∧ 4 / 2 = 2) ∧
    (∀ w : ordered_type (c_unsigned_int 4) reverse_ordering (c_unsigned_short 2),
      w.to_OuterType = none) ∧
    ((ordered_type.construct (c_unsigned_int 4) reverse_ordering (c_unsigned_short 2)
        [0, 0, 0, 0] [0xA, 0xB, 0xC, 0xD]).bind ordered_type.to_OuterType)
      ≠ some [0xA, 0xB, 0xC, 0xD] := by
  refine ⟨by decide, fun _ => rfl, by decide, ?_, by decide⟩
  intro w
  exact detail.reorder_copy_reverse_of_ne _ _ _ (by decide)

/-! Byte reversal as a number -/

theorem and_ff00 (x : Nat) : x &&& 0xFF00 = (x / 256 % 256) * 256 := by
  apply Nat.eq_of_testBit_eq
  intro i
  have h1 : (0xFF00 : Nat) = (2 ^ 8 - 1) <<< 8 := by decide
  have h2 : (x / 256 % 256) * 256 = ((x >>> 8) % 2 ^ 8) <<< 8 := by
    rw [Nat.shiftLeft_eq, Nat.shiftRight_eq_div_pow]
    norm_num
  rw [h1, h2]
  simp only [Nat.testBit_and, Nat.testBit_shiftLeft, Nat.testBit_two_pow_sub_one,
    Nat.testBit_mod_two_pow, Nat.testBit_shiftRight]
  by_cases h : 8 ≤ i
  · have : 8 + (i - 8) = i := by omega
    simp [h, this, Bool.and_comm]
  · simp [h]

theorem native_value_le_append (l : storage) (b : byte) :
    native_value_le (l ++ [b]) = native_value_le l + b.val * 256 ^ l.length := by
  induction l with
  | nil => simp [native_value_le]
  | cons a as ih =>
    show native_value_le (a :: (as ++ [b])) = _
    simp only [native_value_le, ih, List.length_cons]
    ring

theorem native_bytes_le_length (n v : Nat) : (native_bytes_le n v).length = n := by
  induction n generalizing v with
  | zero => rfl
  | succ n ih => simp [native_bytes_le, ih]

theorem native_value_le_bytes (n v : Nat) :
    native_value_le (native_bytes_le n v) = v % 256 ^ n := by
  induction n generalizing v with
  | zero => simp [native_bytes_le, native_value_le, Nat.mod_one]
  | succ n ih =>
    simp only [native_bytes_le, native_value_le, ih, Fin.ofNat, Nat.mod_mod]
    rw [pow_succ', Nat.mod_mul]

theorem native_value_le_reverse_bytes (n v : Nat) :
    native_value_le (native_bytes_le n v).reverse
      = ∑ i in Finset.range n, (v / 256 ^ i % 256) * 256 ^ (n - 1 - i) := by
  induction n generalizing v with
  | zero => simp [native_bytes_le, native_value_le]
  | succ n ih =>
    simp only [native_bytes_le, List.reverse_cons, native_value_le_append, ih,
      List.length_reverse, native_bytes_le_length, Fin.ofNat, Nat.mod_mod]
    rw [Finset.sum_range_succ']
    simp only [pow_zero, Nat.div_one, Nat.add_sub_cancel, Nat.sub_zero]
    congr 1
    apply Finset.sum_congr rfl
    intro i hi
    have hi' : i < n := Finset.mem_range.mp hi
    rw [Nat.div_div_eq_div_mul, ← pow_succ', show n - (i + 1) = n - 1 - i by omega]

theorem native_value_le_swap32 (w : Nat) (hw : w < 2 ^ 32) :
    native_value_le (native_bytes_le 4 w).reverse
      = ((w &&& 0xFF) <<< 24) ||| ((w &&& 0xFF00) <<< 8) ||| ((w >>> 8) &&& 0xFF00)
        ||| (w >>> 24) := by
  have e1 : w &&& 0xFF = w % 256 := Nat.and_pow_two_sub_one_eq_mod w 8
  rw [e1, and_ff00, and_ff00, Nat.shiftRight_eq_div_pow, Nat.shiftRight_eq_div_pow,
    Nat.shiftLeft_eq, Nat.shiftLeft_eq]
  simp only [native_bytes_le, List.reverse_cons, List.reverse_nil, List.nil_append,
    List.cons_append, native_value_le, Fin.ofNat, Nat.mod_mod]
  have hd3 : w / 2 ^ 24 < 2 ^ 8 := by omega
  have a1 : w / 2 ^ 8 / 256 % 256 * 256 ||| w / 2 ^ 24
      = 2 ^ 8 * (w / 2 ^ 8 / 256 % 256) + w / 2 ^ 24 := by
    rw [Nat.mul_add_lt_is_or hd3, Nat.mul_comm]
  have hlt2 : 2 ^ 8 * (w / 2 ^ 8 / 256 % 256) + w / 2 ^ 24 < 2 ^ 16 := by omega
  have a2 : w / 256 % 256 * 256 * 2 ^ 8 ||| (2 ^ 8 * (w / 2 ^ 8 / 256 % 256) + w / 2 ^ 24)
      = 2 ^ 16 * (w / 256 % 256) + (2 ^ 8 * (w / 2 ^ 8 / 256 % 256) + w / 2 ^ 24) := by
    rw [Nat.mul_add_lt_is_or hlt2]
    congr 1
    ring
  have hlt3 : 2 ^ 16 * (w / 256 % 256) + (2 ^ 8 * (w / 2 ^ 8 / 256 % 256) + w / 2 ^ 24)
      < 2 ^ 24 := by omega
  have a3 : w % 256 * 2 ^ 24 ||| (2 ^ 16 * (w / 256 % 256)
        + (2 ^ 8 * (w / 2 ^ 8 / 256 % 256) + w / 2 ^ 24))
      = 2 ^ 24 * (w % 256) + (2 ^ 16 * (w / 256 % 256)
        + (2 ^ 8 * (w / 2 ^ 8 / 256 % 256) + w / 2 ^ 24)) := by
    rw [Nat.mul_add_lt_is_or hlt3, Nat.mul_comm]
  rw [Nat.or_assoc, Nat.or_assoc, a1, a2, a3]
  clear e1 a1 a2 a3 hlt2 hlt3
  have p8 : (2 : Nat) ^ 8 = 256 := by decide
  have p16 : (2 : Nat) ^ 16 = 65536 := by decide
  have p24 : (2 : Nat) ^ 24 = 16777216 := by decide
  have p32 : (2 : Nat) ^ 32 = 4294967296 := by decide
  rw [p8] at hd3
  rw [p24] at hd3
  rw [p32] at hw
  rw [p8, p16, p24]
  have q3 : w / 256 / 256 / 256 = w / 16777216 := by
    rw [Nat.div_div_eq_div_mul, Nat.div_div_eq_div_mul]
  rw [q3, Nat.mod_eq_of_lt hd3]
  omega

theorem native_bytes_length (BIG_ENDIAN : Bool) (n v : Nat) :
    (native_bytes BIG_ENDIAN n v).length = n := by
  cases BIG_ENDIAN <;> simp [native_bytes, native_bytes_le_length]

theorem native_value_bytes (BIG_ENDIAN : Bool) (n v : Nat) :
    native_value BIG_ENDIAN (native_bytes BIG_ENDIAN n v) = v % 256 ^ n := by
  cases BIG_ENDIAN <;> simp [native_value, native_bytes, native_value_le_bytes]

theorem native_value_reverse_bytes (BIG_ENDIAN : Bool) (n v : Nat) :
    native_value BIG_ENDIAN (native_bytes BIG_ENDIAN n v).reverse
      = native_value_le (native_bytes_le n v).reverse := by
  cases BIG_ENDIAN <;> simp [native_value, native_bytes]

/-- C18: for an `n`-byte unsigned integer `v`, on either kind of host, the reversing overloads
at byte granularity turn the object representation of `v` into that of the integer whose
base-256 digits are those of `v` in reverse order; for every 32-bit `w` this is
`((w & 0xFF) << 24) | ((w & 0xFF00) << 8) | ((w >> 8) & 0xFF00) | (w >> 24)`, and
`0x12345678` becomes `0x78563412`. -/
theorem C18_byte_reversal_is_byte_swap (BIG_ENDIAN : Bool) (n v : Nat) (hv : v < 256 ^ n) :
    native_value BIG_ENDIAN (native_bytes BIG_ENDIAN n v) = v ∧
    (∃ r, detail.reorder_reverse 1 n (native_bytes BIG_ENDIAN n v) = some r ∧
      (∀ out : storage, out.length = n →
        detail.reorder_reverse_into 1 n out (native_bytes BIG_ENDIAN n v) = some r) ∧
      native_value BIG_ENDIAN r
        = ∑ i in Finset.range n, (v / 256 ^ i % 256) * 256 ^ (n - 1 - i)) ∧
    (∀ w, w < 2 ^ 32 →
      ∃ r, detail.reorder_reverse 1 4 (native_bytes BIG_ENDIAN 4 w) = some r ∧
        native_value BIG_ENDIAN r
          = ((w &&& 0xFF) <<< 24) ||| ((w &&& 0xFF00) <<< 8) ||| ((w >>> 8) &&& 0xFF00)
            ||| (w >>> 24)) ∧
    (∃ r, detail.reorder_reverse 1 4 (native_bytes BIG_ENDIAN 4 0x12345678) = some r ∧
      native_value BIG_ENDIAN r = 0x78563412) := by
  refine ⟨?_, ?_, ?_, ?_⟩
  · rw [native_value_bytes, Nat.mod_eq_of_lt hv]
  · refine ⟨(native_bytes BIG_ENDIAN n v).reverse,
      detail.reorder_reverse_byte n _ (native_bytes_length BIG_ENDIAN n v), ?_, ?_⟩
    · intro out ho
      exact detail.reorder_reverse_into_byte n out _ (native_bytes_length BIG_ENDIAN n v) ho
    · rw [native_value_reverse_bytes, native_value_le_reverse_bytes]
  · intro w hw
    refine ⟨(native_bytes BIG_ENDIAN 4 w).reverse,
      detail.reorder_reverse_byte 4 _ (native_bytes_length BIG_ENDIAN 4 w), ?_⟩
    rw [native_value_reverse_bytes, native_value_le_swap32 w hw]
  · refine ⟨(native_bytes BIG_ENDIAN 4 0x12345678).reverse,
      detail.reorder_reverse_byte 4 _ (native_bytes_length BIG_ENDIAN 4 0x12345678), ?_⟩
    rw [native_value_reverse_bytes]
    decide

theorem C18_byte_reversal_is_byte_swap_witness :
    native_value false (native_bytes false 2 0x1234) = 0x1234 ∧
    (∃ r, detail.reorder_reverse 1 2 (native_bytes false 2 0x1234) = some r ∧
      (∀ out : storage, out.length = 2 →
        detail.reorder_reverse_into 1 2 out (native_bytes false 2 0x1234) = some r) ∧
      native_value false r
        = ∑ i in Finset.range 2, (0x1234 / 256 ^ i % 256) * 256 ^ (2 - 1 - i)) ∧
    (∀ w, w < 2 ^ 32 →
      ∃ r, detail.reorder_reverse 1 4 (native_bytes false 4 w) = some r ∧
        native_value false r
          = ((w &&& 0xFF) <<< 24) ||| ((w &&& 0xFF00) <<< 8) ||| ((w >>> 8) &&& 0xFF00)
            ||| (w >>> 24)) ∧
    (∃ r, detail.reorder_reverse 1 4 (native_bytes false 4 0x12345678) = some r ∧
      native_value false r = 0x78563412) :=
  C18_byte_reversal_is_byte_swap false 2 0x1234 (by decide)

/-! Nested orderings and the two declared orders -/

theorem elements_flatten_self (g n : Nat) (v : storage) (hv : v.length = n * g) :
    (detail.elements g n v).flatten = v := by
  rw [detail.elements_flatten, ← hv, List.take_length]

theorem reverse_within_flatten (g : Nat) (M : List storage) (rest : storage)
    (hM : ∀ x ∈ M, x.length = g) :
    reverse_within_elements g M.length (M.flatten ++ rest)
      = some ((M.map List.reverse).flatten ++ rest) := by
  induction M with
  | nil => rfl
  | cons x xs ih =>
    have hx : x.length = g := hM x (List.mem_cons_self _ _)
    have hxs : ∀ y ∈ xs, y.length = g := fun y hy => hM y (List.mem_cons_of_mem _ hy)
    simp only [List.length_cons, reverse_within_elements, List.flatten_cons,
      List.append_assoc, List.map_cons]
    rw [List.take_left' hx, List.drop_left' hx, detail.reorder_reverse_byte g x hx, ih hxs]
    rfl

theorem reorder_reverse_flatten (g : Nat) (hg : 0 < g) (M : List storage)
    (hM : ∀ x ∈ M, x.length = g) :
    detail.reorder_reverse g (M.length * g) M.flatten = some M.reverse.flatten := by
  have hlen : M.flatten.length = M.length * g := detail.flatten_length_uniform g M hM
  have hel : detail.elements g M.length M.flatten = M := by
    have := detail.elements_flatten_append g M [] hM
    rwa [List.append_nil] at this
  simp only [detail.reorder_reverse, detail.std_reverse, Nat.mul_div_cancel _ hg, hlen,
    le_refl, if_true, hel]
  rw [List.drop_of_length_le (by omega), List.append_nil]

/-- C19: for a value of `n * g` bytes, reversing at byte granularity gives the same bytes as
reversing the `n` elements of `g` bytes and reversing the bytes inside each element, whichever
of the two steps is taken first. -/
theorem C19_nested_reversal (g n : Nat) (v : storage) (hv : v.length = n * g) :
    detail.reorder_reverse 1 (n * g) v = some v.reverse ∧
    ((detail.reorder_reverse g (n * g) v).bind (reverse_within_elements g n))
      = some v.reverse ∧
    ((reverse_within_elements g n v).bind (detail.reorder_reverse g (n * g)))
      = some v.reverse := by
  have hle : n * g ≤ v.length := by omega
  have hL := detail.elements_mem_length g n v hle
  have hlen := detail.elements_length g n v
  have hflat := elements_flatten_self g n v hv
  have hrev : v.reverse = ((detail.elements g n v).map List.reverse).reverse.flatten := by
    rw [← List.reverse_flatten, hflat]
  have hin : reverse_within_elements g n v
      = some ((detail.elements g n v).map List.reverse).flatten := by
    have := reverse_within_flatten g (detail.elements g n v) [] hL
    rwa [List.append_nil, List.append_nil, hlen, hflat] at this
  refine ⟨detail.reorder_reverse_byte (n * g) v hv, ?_, ?_⟩
  · have hout : detail.reorder_reverse g (n * g) v
        = some (detail.elements g n v).reverse.flatten := by
      rcases Nat.eq_zero_or_pos g with h0 | hpos
      · subst h0
        have hv0 : v = [] := List.length_eq_zero.mp (by simpa using hv)
        subst hv0
        have : (detail.elements 0 n []).reverse.flatten = [] :=
          List.length_eq_zero.mp (by rw [detail.reversed_flatten_length 0 n [] hle]; rfl)
        rw [this]
        simp [detail.reorder_reverse, detail.std_reverse, detail.elements]
      · have := reorder_reverse_flatten g hpos (detail.elements g n v) hL
        rwa [hlen, hflat] at this
    rw [hout, Option.some_bind]
    have hR := detail.reversed_mem_length g n v hle
    have := reverse_within_flatten g (detail.elements g n v).reverse [] hR
    rw [List.append_nil, List.append_nil, List.length_reverse, hlen] at this
    rw [this, hrev, List.map_reverse]
  · rw [hin, Option.some_bind]
    have hM : ∀ x ∈ (detail.elements g n v).map List.reverse, x.length = g := by
      intro x hx
      rcases List.mem_map.mp hx with ⟨y, hy, rfl⟩
      rw [List.length_reverse]
      exact hL y hy
    rcases Nat.eq_zero_or_pos g with h0 | hpos
    · subst h0
      have hv0 : v = [] := List.length_eq_zero.mp (by simpa using hv)
      subst hv0
      have : ((detail.elements 0 n []).map List.reverse).flatten = [] := by
        have h1 := detail.flatten_length_uniform 0 _ hM
        exact List.length_eq_zero.mp (by simpa using h1)
      rw [this]
      simp [detail.reorder_reverse, detail.std_reverse, detail.elements]
    · have := reorder_reverse_flatten g hpos ((detail.elements g n v).map List.reverse) hM
      rw [List.length_map, hlen] at this
      rw [this, hrev]

theorem C19_nested_reversal_witness :
    detail.reorder_reverse 1 (2 * 2) [1, 2, 3, 4] = some ([1, 2, 3, 4] : storage).reverse ∧
    ((detail.reorder_reverse 2 (2 * 2) [1, 2, 3, 4]).bind (reverse_within_elements 2 2))
      = some ([1, 2, 3, 4] : storage).reverse ∧
    ((reverse_within_elements 2 2 [1, 2, 3, 4]).bind (detail.reorder_reverse 2 (2 * 2)))
      = some ([1, 2, 3, 4] : storage).reverse :=
  C19_nested_reversal 2 2 [1, 2, 3, 4] (by decide)

end byte_order
